import Mathlib

/-!
Verification development for the Cloudflare DNS provider
(`octodns/provider/cloudflare.py`) and its reconciliation engine.

The Python source is shallowly embedded: JSON-shaped wire payloads become
the inductive `JVal`, Python dict subscripting becomes `Except`-valued
lookup (KeyError / IndexError / TypeError), the per-type codec functions
(`_contents_for_*`, `_data_for_*`) become Lean functions over those
values, and the stateful reconciliation (`_apply_Update`, `_apply`) is
modelled as explicit call-trace generation plus state passing.

Python dicts are modelled as insertion-ordered association lists with
upsert semantics (the content-fingerprint dictionaries) or as function
maps (the provider's zone / record caches, which are never iterated).
The `hash(dumps(c, sort_keys=True))` content fingerprint is modelled as
the key-sorted canonical form of the JSON value itself, i.e. hashing is
assumed injective on canonical serializations.
-/

/-- Python exception kinds that the provider code can raise or catch. -/
inductive PyErr where
  | keyError
  | indexError
  | typeError
  | attributeError
deriving DecidableEq, Repr

/-- JSON-shaped Python values: the payloads moving over the wire. -/
inductive JVal where
  | s (v : String)
  | n (v : Int)
  | bool (b : Bool)
  | null
  | obj (fields : List (String × JVal))
  | arr (items : List JVal)
deriving Repr

mutual
/-- Structural equality test for `JVal` (deriving cannot handle the
nested lists, so it is written out and proved sound below). -/
def JVal.beq : JVal → JVal → Bool
  | JVal.s a, JVal.s b => a == b
  | JVal.n a, JVal.n b => a == b
  | JVal.bool a, JVal.bool b => a == b
  | JVal.null, JVal.null => true
  | JVal.obj a, JVal.obj b => JVal.beqFields a b
  | JVal.arr a, JVal.arr b => JVal.beqItems a b
  | _, _ => false

def JVal.beqFields : List (String × JVal) → List (String × JVal) → Bool
  | [], [] => true
  | (k, v) :: r, (k2, v2) :: r2 => k == k2 && JVal.beq v v2 && JVal.beqFields r r2
  | _, _ => false

def JVal.beqItems : List JVal → List JVal → Bool
  | [], [] => true
  | v :: r, v2 :: r2 => JVal.beq v v2 && JVal.beqItems r r2
  | _, _ => false
end

theorem JVal.beq_iff : ∀ a b : JVal, (JVal.beq a b = true) ↔ a = b := by
  have main := JVal.beq.induct
    (fun a b => (JVal.beq a b = true) ↔ a = b)
    (fun a b => (JVal.beqItems a b = true) ↔ a = b)
    (fun a b => (JVal.beqFields a b = true) ↔ a = b)
  apply main
  · intro a b; simp [JVal.beq]
  · intro a b; simp [JVal.beq]
  · intro a b; simp [JVal.beq]
  · simp [JVal.beq]
  · intro a b ih; simpa [JVal.beq] using ih
  · intro a b ih; simpa [JVal.beq] using ih
  · intro t x hs hn hb hnull hobj harr
    cases t <;> cases x <;>
      first
        | (exact (hs _ _ rfl rfl).elim)
        | (exact (hn _ _ rfl rfl).elim)
        | (exact (hb _ _ rfl rfl).elim)
        | (exact (hnull rfl rfl).elim)
        | (exact (hobj _ _ rfl rfl).elim)
        | (exact (harr _ _ rfl rfl).elim)
        | simp [JVal.beq]
  · simp [JVal.beqFields]
  · intro k v r k2 v2 r2 ihv ihr
    simp only [JVal.beqFields, Bool.and_eq_true, beq_iff_eq, List.cons.injEq,
      Prod.mk.injEq, ihv, ihr, and_assoc]
  · intro t x hnil hcons
    cases t <;> cases x <;>
      first
        | (exact (hnil rfl rfl).elim)
        | (rename_i p r p2 r2;
            exact (hcons p.1 p.2 r p2.1 p2.2 r2 (by simp) (by simp)).elim)
        | simp [JVal.beqFields]
  · simp [JVal.beqItems]
  · intro v r v2 r2 ihv ihr
    simp only [JVal.beqItems, Bool.and_eq_true, List.cons.injEq, ihv, ihr]
  · intro t x hnil hcons
    cases t <;> cases x <;>
      first
        | (exact (hnil rfl rfl).elim)
        | (rename_i v r v2 r2; exact (hcons v r v2 r2 rfl rfl).elim)
        | simp [JVal.beqItems]

instance : DecidableEq JVal := fun a b =>
  decidable_of_iff (JVal.beq a b = true) (JVal.beq_iff a b)

deriving instance DecidableEq for Except

/-- A wire payload object (a Python dict with string keys). -/
abbrev JObj := List (String × JVal)

/-- First-match association-list lookup (Python dict read). -/
def assocFind (k : String) : JObj → Option JVal
  | [] => none
  | (k', v) :: rest => if k = k' then some v else assocFind k rest

/-- Python dict write `d[k] = v`: replace in place if present, else append. -/
def assocSet (k : String) (v : JVal) : JObj → JObj
  | [] => [(k, v)]
  | (k', v') :: rest => if k = k' then (k, v) :: rest else (k', v') :: assocSet k v rest

/-- Python `d[k]` for a dict-shaped object: KeyError when the key is absent. -/
def pySub (r : JObj) (k : String) : Except PyErr JVal :=
  match assocFind k r with
  | some v => Except.ok v
  | none => Except.error PyErr.keyError

/-- Python subscripting a value by a string key: only dicts allow it. -/
def pyGetStr : JVal → String → Except PyErr JVal
  | JVal.obj fs, k => pySub fs k
  | _, _ => Except.error PyErr.typeError

/-- Python subscripting a value by an integer index.
Lists and strings index (IndexError when out of range, negative indices
count from the end), dicts raise KeyError for a non-member key, and
scalars raise TypeError. -/
def pyGetInt : JVal → Int → Except PyErr JVal
  | JVal.arr xs, i =>
      let j := if i < 0 then i + Int.ofNat xs.length else i
      match xs.get? j.toNat with
      | some v => if 0 ≤ j then Except.ok v else Except.error PyErr.indexError
      | none => Except.error PyErr.indexError
  | JVal.s v, i =>
      let cs := v.data
      let j := if i < 0 then i + Int.ofNat cs.length else i
      match cs.get? j.toNat with
      | some c => if 0 ≤ j then Except.ok (JVal.s (String.mk [c]))
                  else Except.error PyErr.indexError
      | none => Except.error PyErr.indexError
  | JVal.obj _, _ => Except.error PyErr.keyError
  | _, _ => Except.error PyErr.typeError

/-- Lexicographic code-point comparison of strings (Python's `<` on
`str`, as `sort_keys=True` sorting uses; kept kernel-reducible). -/
def strLt : List Char → List Char → Bool
  | [], [] => false
  | [], _ :: _ => true
  | _ :: _, [] => false
  | a :: as, b :: bs =>
      if a.toNat < b.toNat then true
      else if b.toNat < a.toNat then false
      else strLt as bs

/-- Insert a field into a key-sorted field list, keeping it sorted. -/
def insertByKey (p : String × JVal) : List (String × JVal) → List (String × JVal)
  | [] => [p]
  | q :: rest => if strLt p.1.data q.1.data then p :: q :: rest else q :: insertByKey p rest

/-- Sort an object's fields by key (the `sort_keys=True` of `json.dumps`). -/
def sortByKey (l : List (String × JVal)) : List (String × JVal) :=
  l.foldr insertByKey []

mutual
/-- Canonical form of a JSON value: object keys recursively sorted.
Models `json.dumps(v, sort_keys=True)`; two values get the same
fingerprint in `_hash_content` exactly when their canonical forms agree. -/
def canonJVal : JVal → JVal
  | JVal.obj fs => JVal.obj (sortByKey (canonFields fs))
  | JVal.arr xs => JVal.arr (canonItems xs)
  | v => v

def canonFields : List (String × JVal) → List (String × JVal)
  | [] => []
  | (k, v) :: rest => (k, canonJVal v) :: canonFields rest

def canonItems : List JVal → List JVal
  | [] => []
  | v :: rest => canonJVal v :: canonItems rest
end

/-- The content fingerprint of `_hash_content`: the canonicalized payload. -/
def hashContent (c : JObj) : JVal := canonJVal (JVal.obj c)

mutual
/-- Python `str(v)` / `'{}'.format(v)` rendering. Exact for strings and
integers (the only shapes the provider ever formats: record ids and zone
ids); nested containers are rendered structurally. -/
def pyStr : JVal → String
  | JVal.s v => v
  | JVal.n i => toString i
  | JVal.bool b => if b then "True" else "False"
  | JVal.null => "None"
  | JVal.obj fs => "\x7b" ++ pyStrFields fs ++ "\x7d"
  | JVal.arr xs => "[" ++ pyStrItems xs ++ "]"

def pyStrFields : List (String × JVal) → String
  | [] => ""
  | [(k, v)] => k ++ ": " ++ pyStr v
  | (k, v) :: rest => k ++ ": " ++ pyStr v ++ ", " ++ pyStrFields rest

def pyStrItems : List JVal → String
  | [] => ""
  | [v] => pyStr v
  | v :: rest => pyStr v ++ ", " ++ pyStrItems rest
end

/-- Python `s[:-1]`: drop the final character. -/
def dropLastChar (s : String) : String := String.mk s.data.dropLast

/-- Exception-propagating list comprehension `[f(x) for x in l]`. -/
def mapExcept (f : α → Except PyErr β) : List α → Except PyErr (List β)
  | [] => Except.ok []
  | a :: l =>
    match f a with
    | Except.error e => Except.error e
    | Except.ok b =>
      match mapExcept f l with
      | Except.error e => Except.error e
      | Except.ok bs => Except.ok (b :: bs)

/-- A CAA value of a canonical record: flags, tag, value. -/
structure CaaValue where
  flags : Int
  tag : String
  value : String
deriving DecidableEq, Repr

/-- An MX value of a canonical record: preference and exchange
(the exchange carries its trailing dot, as canonical records do). -/
structure MxValue where
  preference : Int
  exchange : String
deriving DecidableEq, Repr

/-- The typed payload of a canonical record: a single value for
CNAME/ALIAS, plain strings for A/AAAA/NS/SPF/TXT, structured values for
CAA and MX. -/
inductive RecordValues where
  | single (v : String)
  | strs (vs : List String)
  | caas (vs : List CaaValue)
  | mxs (vs : List MxValue)
deriving DecidableEq, Repr

/-- A canonical record as the upstream planner hands it over: zone name
(with trailing dot), relative name, type string, TTL and values. -/
structure CanonicalRecord where
  zoneName : String
  name : String
  rtype : String
  ttl : Int
  values : RecordValues
deriving DecidableEq, Repr

/-- The record's fully-qualified name (with trailing dot). -/
def CanonicalRecord.fqdn (r : CanonicalRecord) : String :=
  if r.name = "" then r.zoneName else r.name ++ "." ++ r.zoneName

/-- Python `value.replace('\;', ';')` from `_contents_for_TXT`:
left-to-right removal of the escaping backslash before semicolons. -/
def unescapeSemis : List Char → List Char
  | '\\' :: ';' :: rest => ';' :: unescapeSemis rest
  | c :: rest => c :: unescapeSemis rest
  | [] => []

/-- Python `content.replace(';', '\;')` from `_data_for_TXT`:
left-to-right insertion of an escaping backslash before semicolons. -/
def escapeSemis : List Char → List Char
  | ';' :: rest => '\\' :: ';' :: escapeSemis rest
  | c :: rest => c :: escapeSemis rest
  | [] => []

/-- String-level wrapper of `unescapeSemis`. -/
def unescapeSemisS (s : String) : String := String.mk (unescapeSemis s.data)

/-- String-level wrapper of `escapeSemis`. -/
def escapeSemisS (s : String) : String := String.mk (escapeSemis s.data)

/-- A canonical TXT value is well-escaped when every semicolon it holds
is part of a backslash-semicolon pair in the left-to-right scan. -/
def escapedOk : List Char → Bool
  | '\\' :: ';' :: rest => escapedOk rest
  | ';' :: _ => false
  | _ :: rest => escapedOk rest
  | [] => true

/-- String-level wrapper of `escapedOk`. -/
def escapedOkS (s : String) : Bool := escapedOk s.data

/-- The structured CAA payload `{'flags': .., 'tag': .., 'value': ..}`
from `_contents_for_CAA`. -/
def caaObj (v : CaaValue) : JVal :=
  JVal.obj [("flags", JVal.n v.flags), ("tag", JVal.s v.tag), ("value", JVal.s v.value)]

/-- The per-type `_contents_for_*` dispatch of the provider:
the content fragments of a record, before the common fields are added.
`_contents_for_multiple` serves A, AAAA, NS and SPF; CAA builds the
structured `data` payload; TXT unescapes semicolons; CNAME yields the
single value; MX yields priority and content. A type with no handler is
an attribute lookup failure (`getattr` on a missing `_contents_for_`
method). A record whose values do not fit the handler is likewise an
attribute error. -/
def contentsFor (tpe : String) (r : CanonicalRecord) : Except PyErr (List JObj) :=
  if tpe = "CAA" then
    match r.values with
    | RecordValues.caas vs => Except.ok (vs.map (fun v => [("data", caaObj v)]))
    | _ => Except.error PyErr.attributeError
  else if tpe = "TXT" then
    match r.values with
    | RecordValues.strs vs =>
        Except.ok (vs.map (fun v => [("content", JVal.s (unescapeSemisS v))]))
    | _ => Except.error PyErr.attributeError
  else if tpe = "CNAME" then
    match r.values with
    | RecordValues.single v => Except.ok [[("content", JVal.s v)]]
    | _ => Except.error PyErr.attributeError
  else if tpe = "MX" then
    match r.values with
    | RecordValues.mxs vs =>
        Except.ok (vs.map (fun v =>
          [("priority", JVal.n v.preference), ("content", JVal.s v.exchange)]))
    | _ => Except.error PyErr.attributeError
  else if tpe = "A" ∨ tpe = "AAAA" ∨ tpe = "NS" ∨ tpe = "SPF" then
    match r.values with
    | RecordValues.strs vs => Except.ok (vs.map (fun v => [("content", JVal.s v)]))
    | _ => Except.error PyErr.attributeError
  else Except.error PyErr.attributeError

/-- The provider-enforced minimum TTL (`MIN_TTL`). -/
def MIN_TTL : Int := 120

/-- Python `max(a, b)` on integers (kept kernel-reducible). -/
def pyMax (a b : Int) : Int := if a < b then b else a

/-- `_gen_contents`: encode a canonical record into its wire payload
fragments. The name is the fqdn stripped of its trailing dot, an ALIAS
record is re-encoded under wire type CNAME, and the TTL is clamped to
the provider minimum. -/
def genContents (r : CanonicalRecord) : Except PyErr (List JObj) :=
  let name := dropLastChar r.fqdn
  let tpe := if r.rtype = "ALIAS" then "CNAME" else r.rtype
  let ttl := pyMax MIN_TTL r.ttl
  match contentsFor tpe r with
  | Except.error e => Except.error e
  | Except.ok frags =>
      Except.ok (frags.map (fun c =>
        c ++ [("name", JVal.s name), ("type", JVal.s tpe), ("ttl", JVal.n ttl)]))

/-- The decoded data a `_data_for_*` handler returns, before it is
turned into a canonical record by `Record.new`. -/
inductive DecPayload where
  | value (v : String)
  | values (vs : List JVal)
  | strValues (vs : List String)
  | mxValues (vs : List (JVal × String))
deriving DecidableEq, Repr

/-- The `{'ttl': .., 'type': .., 'value(s)': ..}` dict a decoder builds. -/
structure DecodedData where
  ttl : JVal
  rtype : String
  payload : DecPayload
deriving DecidableEq, Repr

/-- `_data_for_multiple` (A, AAAA, SPF): representative TTL from the
first wire record, each record's flat content as a value. -/
def data_for_multiple (tpe : String) (records : List JObj) : Except PyErr DecodedData :=
  match records with
  | [] => Except.error PyErr.indexError
  | r0 :: _ =>
    match pySub r0 "ttl" with
    | Except.error e => Except.error e
    | Except.ok ttl =>
      match mapExcept (fun r => pySub r "content") records with
      | Except.error e => Except.error e
      | Except.ok vals => Except.ok ⟨ttl, tpe, DecPayload.values vals⟩

/-- `_data_for_TXT`: like multiple, but re-escapes semicolons; a content
that is not a string has no `.replace` method. -/
def data_for_TXT (tpe : String) (records : List JObj) : Except PyErr DecodedData :=
  match records with
  | [] => Except.error PyErr.indexError
  | r0 :: _ =>
    match pySub r0 "ttl" with
    | Except.error e => Except.error e
    | Except.ok ttl =>
      match mapExcept (fun r =>
          match pySub r "content" with
          | Except.error e => Except.error e
          | Except.ok (JVal.s v) => Except.ok (escapeSemisS v)
          | Except.ok _ => Except.error PyErr.attributeError) records with
      | Except.error e => Except.error e
      | Except.ok vals => Except.ok ⟨ttl, tpe, DecPayload.strValues vals⟩

/-- `_data_for_CAA`: collects each record's structured `data` payload
(the loop precedes the representative-TTL read in the source). -/
def data_for_CAA (tpe : String) (records : List JObj) : Except PyErr DecodedData :=
  match mapExcept (fun r => pySub r "data") records with
  | Except.error e => Except.error e
  | Except.ok vals =>
    match records with
    | [] => Except.error PyErr.indexError
    | r0 :: _ =>
      match pySub r0 "ttl" with
      | Except.error e => Except.error e
      | Except.ok ttl => Except.ok ⟨ttl, tpe, DecPayload.values vals⟩

/-- `_data_for_CNAME` (also bound as `_data_for_ALIAS`): single wire
record, value is `'{}.'.format(content)` — the content rendered with a
trailing dot appended. -/
def data_for_CNAME (tpe : String) (records : List JObj) : Except PyErr DecodedData :=
  match records with
  | [] => Except.error PyErr.indexError
  | only :: _ =>
    match pySub only "ttl" with
    | Except.error e => Except.error e
    | Except.ok ttl =>
      match pySub only "content" with
      | Except.error e => Except.error e
      | Except.ok content =>
          Except.ok ⟨ttl, tpe, DecPayload.value (pyStr content ++ ".")⟩

/-- `_data_for_MX`: preference from `priority`, exchange is the content
with a trailing dot appended (the values loop precedes the TTL read). -/
def data_for_MX (tpe : String) (records : List JObj) : Except PyErr DecodedData :=
  match mapExcept (fun r =>
      match pySub r "priority" with
      | Except.error e => Except.error e
      | Except.ok prio =>
        match pySub r "content" with
        | Except.error e => Except.error e
        | Except.ok content => Except.ok (prio, pyStr content ++ ".")) records with
  | Except.error e => Except.error e
  | Except.ok vals =>
    match records with
    | [] => Except.error PyErr.indexError
    | r0 :: _ =>
      match pySub r0 "ttl" with
      | Except.error e => Except.error e
      | Except.ok ttl => Except.ok ⟨ttl, tpe, DecPayload.mxValues vals⟩

/-- `_data_for_NS`: representative TTL, each content with a trailing
dot appended. -/
def data_for_NS (tpe : String) (records : List JObj) : Except PyErr DecodedData :=
  match records with
  | [] => Except.error PyErr.indexError
  | r0 :: _ =>
    match pySub r0 "ttl" with
    | Except.error e => Except.error e
    | Except.ok ttl =>
      match mapExcept (fun r =>
          match pySub r "content" with
          | Except.error e => Except.error e
          | Except.ok content => Except.ok (pyStr content ++ ".")) records with
      | Except.error e => Except.error e
      | Except.ok vals => Except.ok ⟨ttl, tpe, DecPayload.strValues vals⟩

/-- The `getattr(self, '_data_for_{}'.format(_type))` dispatch. -/
def dataFor (tpe : String) (records : List JObj) : Except PyErr DecodedData :=
  if tpe = "A" ∨ tpe = "AAAA" ∨ tpe = "SPF" then data_for_multiple tpe records
  else if tpe = "TXT" then data_for_TXT tpe records
  else if tpe = "CAA" then data_for_CAA tpe records
  else if tpe = "CNAME" ∨ tpe = "ALIAS" then data_for_CNAME tpe records
  else if tpe = "MX" then data_for_MX tpe records
  else if tpe = "NS" then data_for_NS tpe records
  else Except.error PyErr.attributeError

/-- The per-group decode step of `populate`: a CNAME group at the zone
root is reclassified as ALIAS before the `_data_for_*` dispatch. -/
def decodeGroup (name tpe : String) (records : List JObj) : Except PyErr DecodedData :=
  let tpe2 := if tpe = "CNAME" ∧ name = "" then "ALIAS" else tpe
  dataFor tpe2 records

/-- An abstract change produced by the upstream planner. -/
inductive Change where
  | create (new : CanonicalRecord)
  | update (existing new : CanonicalRecord)
  | delete (existing : CanonicalRecord)
deriving DecidableEq, Repr

/-- Modelled from the spec: the change's subject record used by the
root-NS ownership exclusion (the new record when the change carries one,
the existing record for a Delete); the upstream `Change.record` helper
is not part of this repository's sources. -/
def Change.record : Change → CanonicalRecord
  | Change.create nw => nw
  | Change.update _ nw => nw
  | Change.delete ex => ex

/-- Modelled from the spec: the generic superset policy of the base
provider accepts every change by default; `BaseProvider._include_change`
is not part of this repository's sources. -/
def baseIncludeChange (_ : Change) : Bool := true

/-- The comparable `record.data` dict of a canonical record: type, TTL
and values (the relative name is not part of the data dict). -/
def recordData (r : CanonicalRecord) : String × Int × RecordValues :=
  (r.rtype, r.ttl, r.values)

/-- `_include_change`: root NS records are never managed; for an Update
the new record's TTL is clamped (in place) to the provider minimum and
the change is dropped when the clamped new data equals the existing
data; everything else defers to the base policy. The returned change
carries the mutated new record, mirroring the in-place dict write. -/
def includeChange (change : Change) : Bool × Change :=
  if change.record.rtype = "NS" ∧ change.record.name = "" then (false, change)
  else
    match change with
    | Change.update existing nw =>
        let nw2 := { nw with ttl := pyMax 120 nw.ttl }
        let change2 := Change.update existing nw2
        if recordData nw2 = recordData existing then (false, change2)
        else (baseIncludeChange change2, change2)
    | other => (baseIncludeChange other, other)

/-- The `data['errors'][0]['message']` extraction attempted by
`CloudflareAuthenticationError.__init__`. -/
def authExtract (data : JVal) : Except PyErr JVal :=
  match pyGetStr data "errors" with
  | Except.error e => Except.error e
  | Except.ok errs =>
    match pyGetInt errs 0 with
    | Except.error e => Except.error e
    | Except.ok first => pyGetStr first "message"

/-- `CloudflareAuthenticationError.__init__`: use the extracted message,
falling back to the generic message when the extraction raises
IndexError or KeyError; any other exception (e.g. a TypeError from
subscripting a scalar) is not caught. -/
def cfAuthMessage (data : JVal) : Except PyErr JVal :=
  match authExtract data with
  | Except.ok m => Except.ok m
  | Except.error PyErr.indexError => Except.ok (JVal.s "Authentication error")
  | Except.error PyErr.keyError => Except.ok (JVal.s "Authentication error")
  | Except.error e => Except.error e

/-- What a wire call surfaces as, by HTTP status (`_request`): 403
raises the authentication error (whose construction may itself raise),
any other non-2xx propagates via `raise_for_status`, otherwise the
parsed body is returned. -/
inductive ReqOutcome where
  | ok (body : JVal)
  | authError (message : JVal)
  | raised (e : PyErr)
  | httpError (status : Nat)
deriving DecidableEq, Repr

/-- The status dispatch of `_request` on a received response. -/
def requestOutcome (status : Nat) (body : JVal) : ReqOutcome :=
  if status = 403 then
    match cfAuthMessage body with
    | Except.ok m => ReqOutcome.authError m
    | Except.error e => ReqOutcome.raised e
  else if 400 ≤ status then ReqOutcome.httpError status
  else ReqOutcome.ok body

/-- A mutating wire call the reconciliation engine issues:
create (POST path payload), update (PUT path payload), delete (DELETE path). -/
inductive WireCall where
  | post (path : String) (payload : JObj)
  | put (path : String) (payload : JObj)
  | delete (path : String)
deriving DecidableEq, Repr

/-- Whether a call is an update (PUT). -/
def WireCall.isPut : WireCall → Bool
  | WireCall.put _ _ => true
  | _ => false

/-- Whether a call is a create (POST). -/
def WireCall.isPost : WireCall → Bool
  | WireCall.post _ _ => true
  | _ => false

/-- Whether a call is a delete (DELETE). -/
def WireCall.isDelete : WireCall → Bool
  | WireCall.delete _ => true
  | _ => false

/-- A fingerprint-keyed content dictionary entry list. -/
abbrev ContentsDict := List (JVal × JObj)

/-- Python dict insertion for the fingerprint dictionaries: an existing
key keeps its position and gets the new value, a fresh key appends. -/
def dictInsert (k : JVal) (v : JObj) : ContentsDict → ContentsDict
  | [] => [(k, v)]
  | (k2, v2) :: rest =>
      if k = k2 then (k, v) :: rest else (k2, v2) :: dictInsert k v rest

/-- Membership of a fingerprint in a contents dictionary. -/
def dictMem (k : JVal) : ContentsDict → Bool
  | [] => false
  | (k2, _) :: rest => if k = k2 then true else dictMem k rest

/-- Python `dict.pop(k)`: the dictionary without the entry, or `none`
(KeyError) when the key is absent. -/
def dictPop (k : JVal) : ContentsDict → Option ContentsDict
  | [] => none
  | (k2, v2) :: rest =>
      if k = k2 then some rest
      else match dictPop k rest with
           | some rest2 => some ((k2, v2) :: rest2)
           | none => none

/-- The `{self._hash_content(c): c for c in ...}` dict comprehensions of
`_apply_Update`. -/
def contentsDict (frags : List JObj) : ContentsDict :=
  frags.foldl (fun d c => dictInsert (hashContent c) c d) []

/-- The `keys = existing_contents.values()[0].keys()` derivation:
IndexError on an empty dictionary, else the first entry's key list. -/
def keysOf (ec : ContentsDict) : Except PyErr (List String) :=
  match ec with
  | [] => Except.error PyErr.indexError
  | (_, c) :: _ => Except.ok (c.map Prod.fst)

/-- The add-collection loop of `_apply_Update`: walk the new contents in
order, popping matching fingerprints out of the existing contents;
fragments with no existing match become pending adds. Returns the
remaining existing dictionary and the pending adds in order. -/
def computeAdds : ContentsDict → ContentsDict → ContentsDict × List JObj
  | existing, [] => (existing, [])
  | existing, (k, c) :: rest =>
    match dictPop k existing with
    | some existing2 => computeAdds existing2 rest
    | none =>
      let (e2, adds) := computeAdds existing rest
      (e2, c :: adds)

/-- What the live-record scan decides for one wire record: skip it (name
or type differs, or its fingerprint is already wanted), or replace it at
the given record path. -/
inductive LiveAction where
  | skip
  | replace (path : String)
deriving DecidableEq, Repr

/-- One iteration of the live-record scan of `_apply_Update`: match on
name and type, project the record onto the relevant keys, apply the
trailing-dot normalization for CNAME/MX/NS content, test the fingerprint
against the wanted set, and read the record and zone identifiers needed
for the mutation path. -/
def liveStep (keys : List String) (tpe fname : String) (nc : ContentsDict)
    (r : JObj) : Except PyErr LiveAction :=
  match pySub r "name" with
  | Except.error e => Except.error e
  | Except.ok rn =>
    if rn = JVal.s fname then
      match pySub r "type" with
      | Except.error e => Except.error e
      | Except.ok rt =>
        if rt = JVal.s tpe then
          match keys.foldlM (fun acc k =>
              match pySub r k with
              | Except.error e => Except.error e
              | Except.ok v => Except.ok (assocSet k v acc)) ([] : JObj) with
          | Except.error e => Except.error e
          | Except.ok content0 =>
            match (if tpe = "CNAME" ∨ tpe = "MX" ∨ tpe = "NS" then
                     match assocFind "content" content0 with
                     | none => Except.error PyErr.keyError
                     | some (JVal.s v) =>
                         Except.ok (assocSet "content" (JVal.s (v ++ ".")) content0)
                     | some _ => Except.error PyErr.typeError
                   else Except.ok content0) with
            | Except.error e => Except.error e
            | Except.ok content =>
              if dictMem (hashContent content) nc then Except.ok LiveAction.skip
              else
                match pySub r "id" with
                | Except.error e => Except.error e
                | Except.ok rid =>
                  match pySub r "zone_id" with
                  | Except.error e => Except.error e
                  | Except.ok zid =>
                    Except.ok (LiveAction.replace
                      ("/zones/" ++ pyStr zid ++ "/dns_records/" ++ pyStr rid))
        else Except.ok LiveAction.skip
    else Except.ok LiveAction.skip

/-- The live-record scan of `_apply_Update`: for every record needing
replacement, swap in the next pending add via PUT while adds remain,
else DELETE it. Returns the calls issued (in order) and either the
unconsumed adds or the exception that aborted the scan. -/
def scanLive (keys : List String) (tpe fname : String) (nc : ContentsDict) :
    List JObj → List JObj → List WireCall × Except PyErr (List JObj)
  | adds, [] => ([], Except.ok adds)
  | adds, r :: rest =>
    match liveStep keys tpe fname nc r with
    | Except.error e => ([], Except.error e)
    | Except.ok LiveAction.skip => scanLive keys tpe fname nc adds rest
    | Except.ok (LiveAction.replace path) =>
      match adds with
      | a :: adds2 =>
        let (calls, out) := scanLive keys tpe fname nc adds2 rest
        (WireCall.put path a :: calls, out)
      | [] =>
        let (calls, out) := scanLive keys tpe fname nc [] rest
        (WireCall.delete path :: calls, out)

/-- Whether a live-scan step succeeded (raised no exception). -/
def isOkStep : Except PyErr LiveAction → Bool
  | Except.ok _ => true
  | _ => false

/-- Whether a live-scan step decided the record must be replaced. -/
def isReplaceStep : Except PyErr LiveAction → Bool
  | Except.ok (LiveAction.replace _) => true
  | _ => false

/-- The number of live records the scan will replace or remove: those
matching on name and type whose projected fingerprint is not wanted. -/
def replaceCount (keys : List String) (tpe fname : String) (nc : ContentsDict)
    (live : List JObj) : Nat :=
  live.countP (fun r => isReplaceStep (liveStep keys tpe fname nc r))

/-- `_apply_Update`, as the trace of wire calls it issues against the
given live record list, together with the exception that aborted it (if
any). The zones dictionary maps zone names to zone identifiers. -/
def applyUpdate (zones : String → Option String) (live : List JObj)
    (existing nw : CanonicalRecord) : List WireCall × Option PyErr :=
  match genContents existing with
  | Except.error e => ([], some e)
  | Except.ok exFrags =>
    match genContents nw with
    | Except.error e => ([], some e)
    | Except.ok newFrags =>
      let ec := contentsDict exFrags
      let nc := contentsDict newFrags
      match keysOf ec with
      | Except.error e => ([], some e)
      | Except.ok keys =>
        let adds := (computeAdds ec nc).2
        match zones nw.zoneName with
        | none => ([], some PyErr.keyError)
        | some zoneId =>
          let fname := dropLastChar nw.fqdn
          let tpe := nw.rtype
          match scanLive keys tpe fname nc adds live with
          | (calls, Except.error e) => (calls, some e)
          | (calls, Except.ok remaining) =>
            (calls ++ remaining.map (fun c =>
              WireCall.post ("/zones/" ++ zoneId ++ "/dns_records") c), none)

/-- `_apply_Create`: one POST per encoded fragment of the new record. -/
def applyCreate (zones : String → Option String)
    (nw : CanonicalRecord) : List WireCall × Option PyErr :=
  match zones nw.zoneName with
  | none => ([], some PyErr.keyError)
  | some zoneId =>
    match genContents nw with
    | Except.error e => ([], some e)
    | Except.ok frags =>
      (frags.map (fun c => WireCall.post ("/zones/" ++ zoneId ++ "/dns_records") c), none)

/-- The per-record body of `_apply_Delete`'s loop: a DELETE for a live
record matching the deleted record's name and type. -/
def deleteStep (fname tpe : String) (r : JObj) : Except PyErr (Option WireCall) :=
  match pySub r "name" with
  | Except.error e => Except.error e
  | Except.ok rn =>
    if rn = JVal.s fname then
      match pySub r "type" with
      | Except.error e => Except.error e
      | Except.ok rt =>
        if rt = JVal.s tpe then
          match pySub r "zone_id" with
          | Except.error e => Except.error e
          | Except.ok zid =>
            match pySub r "id" with
            | Except.error e => Except.error e
            | Except.ok rid =>
              Except.ok (some (WireCall.delete
                ("/zones/" ++ pyStr zid ++ "/dns_records/" ++ pyStr rid)))
        else Except.ok none
    else Except.ok none

/-- `_apply_Delete`: DELETE every live record whose name and type match. -/
def applyDelete (live : List JObj) (ex : CanonicalRecord) : List WireCall × Option PyErr :=
  let fname := dropLastChar ex.fqdn
  let rec go : List JObj → List WireCall × Option PyErr
    | [] => ([], none)
    | r :: rest =>
      match deleteStep fname ex.rtype r with
      | Except.error e => ([], some e)
      | Except.ok none => go rest
      | Except.ok (some call) =>
        let (calls, err) := go rest
        (call :: calls, err)
  go live

/-- The shared pagination loop of the `zones` property and
`zone_records`: request page 1, 2, ... and accumulate each response's
result list, continuing while the page's reported count is positive and
equals the page size. `server page` returns the page's result list, its
`result_info.count` and its `result_info.per_page`. The loop is modelled
with fuel; the returned number is the total number of page requests
issued. -/
def pagesLoop (server : Nat → List α × Nat × Nat) :
    Nat → Nat → List α → Option (List α × Nat)
  | 0, _, _ => none
  | fuel + 1, page, acc =>
    match server page with
    | (result, count, perPage) =>
      if 0 < count ∧ count = perPage then
        pagesLoop server fuel (page + 1) (acc ++ result)
      else some (acc ++ result, page)

/-- A faithful listing endpoint serving the fixed item list `xs` in
pages of size `P`: page `n` returns the n-th chunk, reporting the
chunk's length as the count and `P` as the page size. -/
def serverOf (xs : List α) (P : Nat) (page : Nat) : List α × Nat × Nat :=
  let chunk := (xs.drop ((page - 1) * P)).take P
  (chunk, chunk.length, P)

/-- The provider's mutable caches: the zone-name-to-identifier mapping
(`_zones`, here taken as already materialized) and the per-zone wire
record cache (`_zone_records`). Modelled as function maps since the
code never iterates them. -/
structure ProvState where
  zones : String → Option String
  zoneRecords : String → Option (List JObj)

/-- `zone_records(zone)`: serve from the cache when present; otherwise
look up the zone id (a missing or falsy id yields an empty list without
caching) and fetch the live records, caching them. `fetch` abstracts the
paged listing (`pagesLoop` over the records endpoint). -/
def zoneRecordsGet (fetch : String → List JObj) (st : ProvState)
    (zname : String) : List JObj × ProvState :=
  match st.zoneRecords zname with
  | some recs => (recs, st)
  | none =>
    match st.zones zname with
    | none => ([], st)
    | some zid =>
      if zid = "" then ([], st)
      else
        let recs := fetch zname
        (recs, { st with zoneRecords := fun n =>
                   if n = zname then some recs else st.zoneRecords n })

/-- `_apply_Update` with the provider state threaded through: the
fragment dictionaries, key derivation and zone-id lookup happen before
the live records are fetched (and possibly cached), exactly as in the
source, so an early exception leaves the cache untouched. -/
def applyUpdateSt (fetch : String → List JObj) (st : ProvState)
    (existing nw : CanonicalRecord) : (List WireCall × Option PyErr) × ProvState :=
  match genContents existing with
  | Except.error e => (([], some e), st)
  | Except.ok exFrags =>
    match genContents nw with
    | Except.error e => (([], some e), st)
    | Except.ok newFrags =>
      let ec := contentsDict exFrags
      let nc := contentsDict newFrags
      match keysOf ec with
      | Except.error e => (([], some e), st)
      | Except.ok keys =>
        let adds := (computeAdds ec nc).2
        match st.zones nw.zoneName with
        | none => (([], some PyErr.keyError), st)
        | some zoneId =>
          let (live, st2) := zoneRecordsGet fetch st nw.zoneName
          let fname := dropLastChar nw.fqdn
          let tpe := nw.rtype
          match scanLive keys tpe fname nc adds live with
          | (calls, Except.error e) => ((calls, some e), st2)
          | (calls, Except.ok remaining) =>
            ((calls ++ remaining.map (fun c =>
               WireCall.post ("/zones/" ++ zoneId ++ "/dns_records") c), none), st2)

/-- One change dispatched by `_apply`'s loop
(`getattr(self, '_apply_{}'...)`). -/
def applyChangeSt (fetch : String → List JObj) (st : ProvState) :
    Change → (List WireCall × Option PyErr) × ProvState
  | Change.create nw => (applyCreate st.zones nw, st)
  | Change.update ex nw => applyUpdateSt fetch st ex nw
  | Change.delete ex =>
      let (live, st2) := zoneRecordsGet fetch st ex.zoneName
      (applyDelete live ex, st2)

/-- The change loop of `_apply`: an exception aborts the remaining
changes (and is propagated), a clean change appends its calls. -/
def applyChangesSt (fetch : String → List JObj) :
    ProvState → List Change → (List WireCall × Option PyErr) × ProvState
  | st, [] => (([], none), st)
  | st, ch :: rest =>
    match applyChangeSt fetch st ch with
    | ((calls, some e), st2) => ((calls, some e), st2)
    | ((calls, none), st2) =>
      let ((calls2, err), st3) := applyChangesSt fetch st2 rest
      ((calls ++ calls2, err), st3)

/-- The zone names a change's records reference (the zones whose cache
its application may read or populate). -/
def changeZoneNames : Change → List String
  | Change.create nw => [nw.zoneName]
  | Change.update ex nw => [ex.zoneName, nw.zoneName]
  | Change.delete ex => [ex.zoneName]

/-- A plan: the target zone and its ordered changes. -/
structure Plan where
  zoneName : String
  changes : List Change

/-- `_apply`: ensure the target zone exists (creating it remotely and
seeding an empty record cache when missing, with `newZoneId` standing
for the identifier the service assigns), run every change, and — only
when no exception aborted the loop — evict the zone's record cache
entry. -/
def applyPlanSt (fetch : String → List JObj) (newZoneId : String)
    (st : ProvState) (plan : Plan) : (List WireCall × Option PyErr) × ProvState :=
  let name := plan.zoneName
  let ensured :=
    match st.zones name with
    | some _ => (([] : List WireCall), st)
    | none =>
      ([WireCall.post "/zones"
         [("name", JVal.s (dropLastChar name)), ("jump_start", JVal.bool false)]],
       { zones := fun n => if n = name then some newZoneId else st.zones n,
         zoneRecords := fun n => if n = name then some [] else st.zoneRecords n })
  match applyChangesSt fetch ensured.2 plan.changes with
  | ((calls, some e), st2) => ((ensured.1 ++ calls, some e), st2)
  | ((calls, none), st2) =>
    ((ensured.1 ++ calls, none),
     { st2 with zoneRecords := fun n =>
         if n = name then none else st2.zoneRecords n })

/-! Concrete instances used by witnesses and counterexamples. -/

/-- The example zone mapping: `unit.tests.` has identifier `z1`. -/
def cfZones : String → Option String :=
  fun n => if n = "unit.tests." then some "z1" else none

/-- Existing canonical record: CNAME `a` pointing at `old.`. -/
def exCname : CanonicalRecord :=
  ⟨"unit.tests.", "a", "CNAME", 300, RecordValues.single "old."⟩

/-- Desired canonical record: CNAME `a` pointing at `new.`. -/
def nwCname : CanonicalRecord :=
  ⟨"unit.tests.", "a", "CNAME", 300, RecordValues.single "new."⟩

/-- One live wire record for `a`/CNAME with content `old`. -/
def liveOld : List JObj :=
  [[("id", JVal.s "r1"), ("zone_id", JVal.s "z1"),
    ("name", JVal.s "a.unit.tests"), ("type", JVal.s "CNAME"),
    ("content", JVal.s "old"), ("ttl", JVal.n 300)]]

/-- The live state after the first run: the same record now carries
content `new`. -/
def liveNew : List JObj :=
  [[("id", JVal.s "r1"), ("zone_id", JVal.s "z1"),
    ("name", JVal.s "a.unit.tests"), ("type", JVal.s "CNAME"),
    ("content", JVal.s "new"), ("ttl", JVal.n 300)]]

/-- A root NS record with TTL 90 (existing side). -/
def exNS : CanonicalRecord :=
  ⟨"unit.tests.", "", "NS", 90, RecordValues.strs ["ns1.example.com."]⟩

/-- A root NS record with TTL 60 (desired side). -/
def nwNS : CanonicalRecord :=
  ⟨"unit.tests.", "", "NS", 60, RecordValues.strs ["ns1.example.com."]⟩

/-- A CNAME record with TTL 120, the provider minimum (existing side). -/
def exT120 : CanonicalRecord :=
  ⟨"unit.tests.", "a", "CNAME", 120, RecordValues.single "t."⟩

/-- A CNAME record with TTL 90, below the provider minimum
(existing side). -/
def exT90 : CanonicalRecord :=
  ⟨"unit.tests.", "a", "CNAME", 90, RecordValues.single "t."⟩

/-- The desired record with TTL 60, otherwise equal to the two above. -/
def nwT60 : CanonicalRecord :=
  ⟨"unit.tests.", "a", "CNAME", 60, RecordValues.single "t."⟩

/-- An existing record with no values: it encodes to zero fragments. -/
def exEmpty : CanonicalRecord :=
  ⟨"unit.tests.", "w", "A", 300, RecordValues.strs []⟩

/-- A well-formed 403 error body carrying the message `denied`. -/
def wfBody : JVal :=
  JVal.obj [("errors", JVal.arr [JVal.obj [("message", JVal.s "denied")]])]

/-- A malformed 403 error body: the errors list is empty. -/
def emptyErrsBody : JVal := JVal.obj [("errors", JVal.arr [])]

/-- A malformed 403 error body from which the message extraction raises
a TypeError: the errors field is a number. -/
def badBody : JVal := JVal.obj [("errors", JVal.n 42)]

/-- A fetch oracle returning no records (the cache is pre-seeded in the
witness scenario). -/
def fetch8 : String → List JObj := fun _ => []

/-- A provider state caching records for two zones. -/
def st8 : ProvState :=
  ⟨cfZones, fun n =>
    if n = "unit.tests." then some liveOld
    else if n = "other.tests." then some [] else none⟩

/-- A one-change plan deleting the CNAME from `unit.tests.`. -/
def plan8 : Plan := ⟨"unit.tests.", [Change.delete exCname]⟩

/-! Supporting lemmas. -/

/-- A Python dict insertion never produces an empty dictionary. -/
theorem dictInsert_ne_nil (k : JVal) (v : JObj) (d : ContentsDict) :
    dictInsert k v d ≠ [] := by
  cases d with
  | nil => simp [dictInsert]
  | cons p rest => simp only [dictInsert]; split <;> simp

/-- The fingerprint-dictionary fold keeps a nonempty dictionary
nonempty. -/
theorem foldl_dictInsert_ne_nil (cs : List JObj) :
    ∀ d : ContentsDict, d ≠ [] →
      cs.foldl (fun d c => dictInsert (hashContent c) c d) d ≠ [] := by
  induction cs with
  | nil => intro d hd; simpa using hd
  | cons c rest ih =>
    intro d hd
    simp only [List.foldl_cons]
    exact ih _ (dictInsert_ne_nil _ _ _)

/-- The fragment dictionary of a nonempty fragment list is nonempty. -/
theorem contentsDict_ne_nil (frags : List JObj) (h : frags ≠ []) :
    contentsDict frags ≠ [] := by
  cases frags with
  | nil => exact absurd rfl h
  | cons c cs =>
    simp only [contentsDict, List.foldl_cons]
    exact foldl_dictInsert_ne_nil cs _ (dictInsert_ne_nil _ _ _)

/-! Claim theorems. -/

/-- C5 (amended): for an Update whose new record has TTL 60 against the
provider minimum 120 and which is otherwise field-equal to the existing
record, the change filter rejects the change when the existing TTL is
already 120; when the existing TTL is 90 it accepts the change provided
the record is not a root NS record (root NS changes are excluded before
the TTL logic runs). -/
theorem ttl_floor_filter (ex nw : CanonicalRecord)
    (httl : nw.ttl = 60) (hrt : nw.rtype = ex.rtype) (hv : nw.values = ex.values) :
    (ex.ttl = 120 → (includeChange (Change.update ex nw)).1 = false) ∧
    (ex.ttl = 90 → ¬(nw.rtype = "NS" ∧ nw.name = "") →
      (includeChange (Change.update ex nw)).1 = true) := by
  constructor
  · intro h120
    by_cases hNS : nw.rtype = "NS" ∧ nw.name = ""
    · simp [includeChange, Change.record, hNS]
    · have hdata : recordData { nw with ttl := pyMax 120 nw.ttl } = recordData ex := by
        simp [recordData, hrt, hv, httl, h120, pyMax]
      simp [includeChange, Change.record, hNS, hdata]
  · intro h90 hNS
    have hdata : recordData { nw with ttl := pyMax 120 nw.ttl } ≠ recordData ex := by
      simp [recordData, httl, h90, pyMax]
    simp [includeChange, Change.record, hNS, hdata, baseIncludeChange]

/-- C5 witness: the two concrete filter decisions at TTL 60 vs existing
TTLs 120 and 90, obtained from `ttl_floor_filter`. -/
theorem ttl_floor_filter_witness :
    (includeChange (Change.update exT120 nwT60)).1 = false ∧
    (includeChange (Change.update exT90 nwT60)).1 = true := by
  constructor
  · exact (ttl_floor_filter exT120 nwT60 (by decide) (by decide) (by decide)).1 (by decide)
  · exact (ttl_floor_filter exT90 nwT60 (by decide) (by decide) (by decide)).2
      (by decide) (by decide)

/-- C5 counterexample: a root NS Update with new TTL 60 and existing
TTL 90 is rejected by the filter, although the claim (quantified over
every Update change) demands it be accepted when the existing TTL is
90. -/
theorem ttl_filter_root_ns_counterexample :
    nwNS.ttl = 60 ∧ exNS.ttl = 90 ∧
    (includeChange (Change.update exNS nwNS)).1 = false := by
  refine ⟨by decide, by decide, by decide⟩

/-- C10 (amended): for an Update that is not a root NS record and whose
new record has TTL below 120, the change filter rewrites the new
record's TTL to 120 in place — whether the change ends up rejected or
accepted, the change it hands on carries the clamped TTL. -/
theorem filter_ttl_mutation (ex nw : CanonicalRecord)
    (hNS : ¬(nw.rtype = "NS" ∧ nw.name = "")) (h : nw.ttl < 120) :
    (includeChange (Change.update ex nw)).2 = Change.update ex { nw with ttl := 120 } := by
  have hmax : pyMax 120 nw.ttl = 120 := by
    simp [pyMax]
    omega
  simp only [includeChange, Change.record, hNS, if_false, hmax]
  split <;> rfl

/-- C10 witness: the concrete filter run at new TTL 60, via
`filter_ttl_mutation`. -/
theorem filter_ttl_mutation_witness :
    (includeChange (Change.update exT90 nwT60)).2 =
      Change.update exT90 { nwT60 with ttl := 120 } :=
  filter_ttl_mutation exT90 nwT60 (by decide) (by decide)

/-- C10 counterexample: for a root NS Update with new TTL 60 the filter
returns the change untouched — the new record's TTL stays 60, although
the claim (quantified over every Update with TTL below 120) demands it
be set to 120. -/
theorem filter_mutation_root_ns_counterexample :
    nwNS.ttl = 60 ∧
    (includeChange (Change.update exNS nwNS)).2 = Change.update exNS nwNS := by
  refine ⟨by decide, by decide⟩

/-- C6: decoding any wire record group of type CNAME at the zone root
(empty relative name) yields canonical type ALIAS, and encoding any
ALIAS record produces only fragments whose wire type field is CNAME. -/
theorem alias_cname_substitution :
    (∀ (records : List JObj) (d : DecodedData),
       decodeGroup "" "CNAME" records = Except.ok d → d.rtype = "ALIAS") ∧
    (∀ (r : CanonicalRecord) (frags : List JObj),
       r.rtype = "ALIAS" → genContents r = Except.ok frags →
       ∀ f ∈ frags, assocFind "type" f = some (JVal.s "CNAME")) := by
  constructor
  · intro records d h
    simp only [decodeGroup, dataFor] at h
    simp at h
    cases records with
    | nil => simp [data_for_CNAME] at h
    | cons only rest =>
      simp only [data_for_CNAME] at h
      rcases httl : pySub only "ttl" with e | ttl
      · rw [httl] at h; simp at h
      · rw [httl] at h
        rcases hcontent : pySub only "content" with e | content
        · rw [hcontent] at h; simp at h
        · rw [hcontent] at h
          simp only [Except.ok.injEq] at h
          subst h
          rfl
  · intro r frags hal hgen f hf
    simp only [genContents, hal, contentsFor] at hgen
    simp at hgen
    match hv : r.values with
    | RecordValues.single v =>
        rw [hv] at hgen
        simp at hgen
        subst hgen
        simp only [List.mem_singleton] at hf
        subst hf
        simp [assocFind]
    | RecordValues.strs vs => rw [hv] at hgen; simp at hgen
    | RecordValues.caas vs => rw [hv] at hgen; simp at hgen
    | RecordValues.mxs vs => rw [hv] at hgen; simp at hgen

/-- C6 witness: a root CNAME wire group decodes to type ALIAS, and the
concrete ALIAS record at the root encodes to wire type CNAME fragments,
via `alias_cname_substitution`. -/
theorem alias_cname_substitution_witness :
    (decodeGroup "" "CNAME" [[("content", JVal.s "tgt"), ("ttl", JVal.n 300)]]).map
        (fun d => d.rtype) = Except.ok "ALIAS" ∧
    assocFind "type" [("content", JVal.s "tgt."), ("name", JVal.s "unit.tests"),
        ("type", JVal.s "CNAME"), ("ttl", JVal.n 300)] = some (JVal.s "CNAME") := by
  constructor
  · decide
  · exact alias_cname_substitution.2
      ⟨"unit.tests.", "", "ALIAS", 300, RecordValues.single "tgt."⟩
      [[("content", JVal.s "tgt."), ("name", JVal.s "unit.tests"),
        ("type", JVal.s "CNAME"), ("ttl", JVal.n 300)]]
      (by decide) (by decide) _ (by decide)

/-- C7 (amended): on a 403 response the operation raises the
authentication error carrying the service-reported message when the
`errors[0].message` extraction succeeds, and carrying the generic
message when the extraction fails with an IndexError or KeyError; an
extraction failure of any other kind (a TypeError from subscripting a
scalar) propagates as that exception instead of the authentication
error. -/
theorem auth_error_messages (body : JVal) :
    (∀ m, authExtract body = Except.ok m →
       requestOutcome 403 body = ReqOutcome.authError m) ∧
    ((authExtract body = Except.error PyErr.indexError ∨
      authExtract body = Except.error PyErr.keyError) →
       requestOutcome 403 body = ReqOutcome.authError (JVal.s "Authentication error")) := by
  constructor
  · intro m h
    simp [requestOutcome, cfAuthMessage, h]
  · intro h
    rcases h with h | h <;> simp [requestOutcome, cfAuthMessage, h]

/-- C7 witness: the concrete 403 outcomes — a well-formed body yields
its own message, a body with an empty errors list and a body with no
errors key both yield the generic message — via `auth_error_messages`. -/
theorem auth_error_messages_witness :
    requestOutcome 403 wfBody = ReqOutcome.authError (JVal.s "denied") ∧
    requestOutcome 403 emptyErrsBody =
      ReqOutcome.authError (JVal.s "Authentication error") ∧
    requestOutcome 403 (JVal.obj []) =
      ReqOutcome.authError (JVal.s "Authentication error") := by
  refine ⟨?_, ?_, ?_⟩
  · exact (auth_error_messages wfBody).1 (JVal.s "denied") (by decide)
  · exact (auth_error_messages emptyErrsBody).2 (Or.inl (by decide))
  · exact (auth_error_messages (JVal.obj [])).2 (Or.inr (by decide))

/-- C7 counterexample: for the malformed 403 body `{errors: 42}` the
message extraction raises a TypeError, which propagates instead of
producing the generic authentication error — refuting the claim that
every malformed error body falls back to the generic message. -/
theorem auth_error_type_error_counterexample :
    requestOutcome 403 badBody = ReqOutcome.raised PyErr.typeError := by
  decide

/-- C9: the Update reconciliation derives its relevant-key set by
indexing the first entry of the existing record's fragment dictionary;
when the existing record encodes to at least one fragment this
derivation succeeds and yields that entry's keys, and when it encodes to
zero fragments the operation raises IndexError having issued no
mutating wire call. -/
theorem update_keys_derivation :
    (∀ frags : List JObj, frags ≠ [] →
       ∃ c rest, contentsDict frags = c :: rest ∧
         keysOf (contentsDict frags) = Except.ok (c.2.map Prod.fst)) ∧
    (∀ (zones : String → Option String) (live : List JObj)
       (ex nw : CanonicalRecord) (newFrags : List JObj),
       genContents ex = Except.ok [] → genContents nw = Except.ok newFrags →
       applyUpdate zones live ex nw = ([], some PyErr.indexError)) := by
  constructor
  · intro frags h
    rcases hd : contentsDict frags with _ | ⟨c, rest⟩
    · exact absurd hd (contentsDict_ne_nil frags h)
    · exact ⟨c, rest, rfl, rfl⟩
  · intro zones live ex nw newFrags hex hnw
    simp [applyUpdate, hex, hnw, contentsDict, keysOf]

/-- C9 witness: at a concrete existing record with one fragment the key
derivation succeeds, and at the concrete record with no values the
reconciliation aborts with IndexError and an empty call trace, via
`update_keys_derivation`. -/
theorem update_keys_derivation_witness :
    (∃ c rest,
       contentsDict [[("content", JVal.s "x")]] = c :: rest ∧
       keysOf (contentsDict [[("content", JVal.s "x")]]) =
         Except.ok (c.2.map Prod.fst)) ∧
    applyUpdate cfZones liveOld exEmpty nwCname = ([], some PyErr.indexError) := by
  constructor
  · exact update_keys_derivation.1 [[("content", JVal.s "x")]] (by decide)
  · exact update_keys_derivation.2 cfZones liveOld exEmpty nwCname
      [[("content", JVal.s "new."), ("name", JVal.s "a.unit.tests"),
        ("type", JVal.s "CNAME"), ("ttl", JVal.n 300)]] (by decide) (by decide)

/-- The pagination loop against a faithful fixed-list endpoint: starting
from page `q+1` (with the first `q` pages' items already consumed) the
loop accumulates every remaining item and issues one request per full
page plus the final short or empty page. -/
theorem pagesLoop_serverOf {α : Type} (xs : List α) (P : Nat) (hP : 0 < P) :
    ∀ (fuel q : Nat) (acc : List α),
      (xs.drop (q * P)).length / P < fuel →
      pagesLoop (serverOf xs P) fuel (q + 1) acc =
        some (acc ++ xs.drop (q * P), (q + 1) + (xs.drop (q * P)).length / P) := by
  intro fuel
  induction fuel with
  | zero => intro q acc h; exact absurd h (Nat.not_lt_zero _)
  | succ f ih =>
    intro q acc h
    have hserver : serverOf xs P (q + 1) =
        ((xs.drop (q * P)).take P, ((xs.drop (q * P)).take P).length, P) := by
      simp [serverOf]
    rw [pagesLoop, hserver]
    dsimp only
    by_cases hc : P ≤ (xs.drop (q * P)).length
    · have hlen : ((xs.drop (q * P)).take P).length = P := by
        rw [List.length_take]
        exact Nat.min_eq_left hc
      have hdd : xs.drop ((q + 1) * P) = (xs.drop (q * P)).drop P := by
        rw [List.drop_drop]
        congr 1
        ring
      have hdiv : (xs.drop (q * P)).length / P =
          ((xs.drop (q * P)).length - P) / P + 1 := by
        rw [Nat.div_eq, if_pos ⟨hP, hc⟩]
      have hlt : (xs.drop ((q + 1) * P)).length / P < f := by
        rw [hdd, List.length_drop]
        omega
      have hrec := ih (q + 1) (acc ++ (xs.drop (q * P)).take P) hlt
      have hcond : 0 < (List.take P (List.drop (q * P) xs)).length ∧
          (List.take P (List.drop (q * P) xs)).length = P := by
        rw [hlen]
        exact ⟨hP, rfl⟩
      rw [if_pos hcond, hrec, hdd]
      have happ : acc ++ (xs.drop (q * P)).take P ++ (xs.drop (q * P)).drop P =
          acc ++ xs.drop (q * P) := by
        rw [List.append_assoc, List.take_append_drop]
      rw [happ]
      have hlen2 : ((xs.drop (q * P)).drop P).length =
          (xs.drop (q * P)).length - P := by rw [List.length_drop]
      rw [hlen2]
      simp only [Option.some.injEq, Prod.mk.injEq, true_and]
      omega
    · have hnP : (xs.drop (q * P)).length < P := Nat.lt_of_not_le hc
      have htake : (xs.drop (q * P)).take P = xs.drop (q * P) :=
        List.take_of_length_le (Nat.le_of_lt hnP)
      have hlen : ((xs.drop (q * P)).take P).length = (xs.drop (q * P)).length := by
        rw [htake]
      have hcond : ¬(0 < ((xs.drop (q * P)).take P).length ∧
          ((xs.drop (q * P)).take P).length = P) := by
        rw [hlen]
        rintro ⟨-, habs⟩
        omega
      simp only [if_neg hcond]
      rw [htake, Nat.div_eq_of_lt hnP]

/-- C4 (amended): listing `N` items through the pagination loop with
page size `P` issues exactly `N / P + 1` page requests — one request
per full page plus a final short page (or, when `P` divides `N`, a
trailing empty page) — and returns exactly the served items, hence `N`
items with no duplicates when the listing is duplicate-free; the
claimed `ceil(N/P)` count holds exactly when `P` does not divide `N`. -/
theorem pagination_requests_and_items {α : Type} (xs : List α) (P fuel : Nat)
    (hP : 0 < P) (hfuel : xs.length / P < fuel) :
    pagesLoop (serverOf xs P) fuel 1 [] = some (xs, xs.length / P + 1) ∧
    (¬ (P ∣ xs.length) → xs.length / P + 1 = (xs.length + P - 1) / P) := by
  constructor
  · have h := pagesLoop_serverOf xs P hP fuel 0 [] (by simpa using hfuel)
    simpa [Nat.add_comm] using h
  · intro hnd
    have hN : xs.length ≠ 0 := by
      intro h0
      exact hnd (h0 ▸ Nat.dvd_zero P)
    have h1 : xs.length + P - 1 = (xs.length - 1) + P := by omega
    rw [h1, Nat.add_div_right _ hP]
    have h2 : xs.length = (xs.length - 1) + 1 := by omega
    have h3 : xs.length / P = (xs.length - 1) / P := by
      conv_lhs => rw [h2]
      rw [Nat.succ_div, if_neg]
      · simp
      · rw [← h2]
        exact hnd
    omega

/-- C4 witness: five items at page size two — three requests (the
ceiling of 5/2, since 2 does not divide 5) and exactly the five items —
via `pagination_requests_and_items`. -/
theorem pagination_requests_and_items_witness :
    pagesLoop (serverOf [0, 1, 2, 3, 4] 2) 10 1 [] = some ([0, 1, 2, 3, 4], 3) ∧
    (5 : Nat) / 2 + 1 = (5 + 2 - 1) / 2 := by
  have h := pagination_requests_and_items [0, 1, 2, 3, 4] 2 10 (by decide) (by decide)
  exact ⟨by simpa using h.1, h.2 (by decide)⟩

/-- C4 counterexample: four items at page size two — the loop issues a
third, trailing empty-page request, so the request count is 3 and not
the claimed `ceil(4/2) = 2`. -/
theorem pagination_extra_request_counterexample :
    pagesLoop (serverOf [0, 1, 2, 3] 2) 10 1 [] = some ([0, 1, 2, 3], 3) ∧
    (4 + 2 - 1) / 2 = 2 ∧ (3 : Nat) ≠ 2 := by decide

/-- The live-record scan, specified: when every step succeeds, the scan
issues one call per record needing replacement — a PUT while pending
adds remain, then DELETEs — consumes exactly that many adds, and issues
no create. -/
theorem scanLive_spec (keys : List String) (tpe fname : String) (nc : ContentsDict) :
    ∀ (live : List JObj) (adds : List JObj),
      (∀ r ∈ live, isOkStep (liveStep keys tpe fname nc r) = true) →
      ∃ calls,
        scanLive keys tpe fname nc adds live =
          (calls, Except.ok (adds.drop (replaceCount keys tpe fname nc live))) ∧
        calls.length = replaceCount keys tpe fname nc live ∧
        calls.countP (fun c => c.isPut) =
          min (replaceCount keys tpe fname nc live) adds.length ∧
        calls.countP (fun c => c.isDelete) =
          replaceCount keys tpe fname nc live - adds.length ∧
        calls.countP (fun c => c.isPost) = 0 := by
  intro live
  induction live with
  | nil =>
    intro adds _
    exact ⟨[], by simp [scanLive, replaceCount], by simp [replaceCount],
      by simp [replaceCount], by simp [replaceCount], by simp⟩
  | cons r rest ih =>
    intro adds h
    have hr := h r (by simp)
    have hrest : ∀ x ∈ rest, isOkStep (liveStep keys tpe fname nc x) = true :=
      fun x hx => h x (by simp [hx])
    rcases hstep : liveStep keys tpe fname nc r with e | act
    · rw [hstep] at hr; simp [isOkStep] at hr
    · cases act with
      | skip =>
        obtain ⟨calls, heq, h1, h2, h3, h4⟩ := ih adds hrest
        have hcount : replaceCount keys tpe fname nc (r :: rest) =
            replaceCount keys tpe fname nc rest := by
          simp [replaceCount, List.countP_cons, hstep, isReplaceStep]
        exact ⟨calls, by simp [scanLive, hstep, heq, hcount],
          by rw [hcount]; exact h1, by rw [hcount]; exact h2,
          by rw [hcount]; exact h3, h4⟩
      | replace path =>
        have hcount : replaceCount keys tpe fname nc (r :: rest) =
            replaceCount keys tpe fname nc rest + 1 := by
          simp [replaceCount, List.countP_cons, hstep, isReplaceStep]
        cases adds with
        | nil =>
          obtain ⟨calls, heq, h1, h2, h3, h4⟩ := ih [] hrest
          simp only [List.length_nil] at h2 h3
          refine ⟨WireCall.delete path :: calls, ?_, ?_, ?_, ?_, ?_⟩
          · simp [scanLive, hstep, heq]
          · simp [h1, hcount]
          · have hadd : List.countP (fun c => c.isPut) (WireCall.delete path :: calls) =
                List.countP (fun c => c.isPut) calls := by
              rw [List.countP_cons]; simp [WireCall.isPut]
            rw [hadd, hcount]
            simp only [List.length_nil]
            omega
          · have hadd : List.countP (fun c => c.isDelete) (WireCall.delete path :: calls) =
                List.countP (fun c => c.isDelete) calls + 1 := by
              rw [List.countP_cons]; simp [WireCall.isDelete]
            rw [hadd, hcount]
            simp only [List.length_nil]
            omega
          · have hadd : List.countP (fun c => c.isPost) (WireCall.delete path :: calls) =
                List.countP (fun c => c.isPost) calls := by
              rw [List.countP_cons]; simp [WireCall.isPost]
            rw [hadd]
            omega
        | cons a adds2 =>
          obtain ⟨calls, heq, h1, h2, h3, h4⟩ := ih adds2 hrest
          refine ⟨WireCall.put path a :: calls, ?_, ?_, ?_, ?_, ?_⟩
          · simp [scanLive, hstep, heq, hcount]
          · simp [h1, hcount]
          · have hadd : List.countP (fun c => c.isPut) (WireCall.put path a :: calls) =
                List.countP (fun c => c.isPut) calls + 1 := by
              rw [List.countP_cons]; simp [WireCall.isPut]
            rw [hadd, hcount]
            simp only [List.length_cons]
            omega
          · have hadd : List.countP (fun c => c.isDelete) (WireCall.put path a :: calls) =
                List.countP (fun c => c.isDelete) calls := by
              rw [List.countP_cons]; simp [WireCall.isDelete]
            rw [hadd, hcount]
            simp only [List.length_cons]
            omega
          · have hadd : List.countP (fun c => c.isPost) (WireCall.put path a :: calls) =
                List.countP (fun c => c.isPost) calls := by
              rw [List.countP_cons]; simp [WireCall.isPost]
            rw [hadd]
            omega

/-- C1: when the pending-add fragments (fingerprints desired but not in
the existing encoding) and the live records to replace (matching name
and type, fingerprint not desired) have the same non-zero count `m`,
`_apply_Update` issues exactly `m` update (PUT) calls and no create or
delete call. -/
theorem update_swap_preference
    (zones : String → Option String) (live : List JObj)
    (existing nw : CanonicalRecord) (exFrags newFrags : List JObj)
    (keys : List String) (zid : String) (m : Nat)
    (hex : genContents existing = Except.ok exFrags)
    (hnw : genContents nw = Except.ok newFrags)
    (hkeys : keysOf (contentsDict exFrags) = Except.ok keys)
    (hz : zones nw.zoneName = some zid)
    (hlive : ∀ r ∈ live,
      isOkStep (liveStep keys nw.rtype (dropLastChar nw.fqdn)
        (contentsDict newFrags) r) = true)
    (hadds : (computeAdds (contentsDict exFrags) (contentsDict newFrags)).2.length = m)
    (hrem : replaceCount keys nw.rtype (dropLastChar nw.fqdn)
      (contentsDict newFrags) live = m)
    (_hm : 0 < m) :
    ∃ calls, applyUpdate zones live existing nw = (calls, none) ∧
      calls.length = m ∧ ∀ c ∈ calls, c.isPut = true := by
  obtain ⟨calls, heq, h1, h2, h3, h4⟩ :=
    scanLive_spec keys nw.rtype (dropLastChar nw.fqdn) (contentsDict newFrags) live
      (computeAdds (contentsDict exFrags) (contentsDict newFrags)).2 hlive
  rw [hrem] at heq h1 h2 h3
  rw [hadds] at h2 h3
  have hdrop : (computeAdds (contentsDict exFrags) (contentsDict newFrags)).2.drop m = [] := by
    rw [← hadds]
    exact List.drop_length _
  rw [hdrop] at heq
  refine ⟨calls, ?_, h1, ?_⟩
  · simp only [applyUpdate, hex, hnw, hkeys, hz, heq, List.map_nil, List.append_nil]
  · have hput : calls.countP (fun c => c.isPut) = calls.length := by
      rw [h1, h2]
      exact Nat.min_self m
    intro c hc
    exact List.countP_eq_length.mp hput c hc

/-- C1 witness: the spec's concrete scenario — existing CNAME `a → old.`
desired CNAME `a → new.`, one matching live record — issues exactly one
PUT on that record's id carrying content `new.` and nothing else; the
count statement follows from `update_swap_preference`. -/
theorem update_swap_preference_witness :
    applyUpdate cfZones liveOld exCname nwCname =
      ([WireCall.put "/zones/z1/dns_records/r1"
        [("content", JVal.s "new."), ("name", JVal.s "a.unit.tests"),
         ("type", JVal.s "CNAME"), ("ttl", JVal.n 300)]], none) ∧
    (∃ calls, applyUpdate cfZones liveOld exCname nwCname = (calls, none) ∧
      calls.length = 1 ∧ ∀ c ∈ calls, c.isPut = true) := by
  refine ⟨by decide, ?_⟩
  exact update_swap_preference cfZones liveOld exCname nwCname
    [[("content", JVal.s "old."), ("name", JVal.s "a.unit.tests"),
      ("type", JVal.s "CNAME"), ("ttl", JVal.n 300)]]
    [[("content", JVal.s "new."), ("name", JVal.s "a.unit.tests"),
      ("type", JVal.s "CNAME"), ("ttl", JVal.n 300)]]
    ["content", "name", "type", "ttl"] "z1" 1
    (by decide) (by decide) (by decide) (by decide) (by decide) (by decide)
    (by decide) (by decide)

/-- C2 (amended): re-applying the same Update change against the
post-first-run live state (every matching live record already carries a
desired fingerprint, so no record needs replacement) issues zero update
and zero delete calls but re-issues one create per pending add fragment;
the second run is silent exactly when the desired encoding introduces no
fragment absent from the existing encoding — as happens when the re-run
change carries existing = new, the shape the planner produces on a
genuine second pass. -/
theorem update_rerun_calls
    (zones : String → Option String) (live : List JObj)
    (existing nw : CanonicalRecord) (exFrags newFrags : List JObj)
    (keys : List String) (zid : String)
    (hex : genContents existing = Except.ok exFrags)
    (hnw : genContents nw = Except.ok newFrags)
    (hkeys : keysOf (contentsDict exFrags) = Except.ok keys)
    (hz : zones nw.zoneName = some zid)
    (hlive : ∀ r ∈ live,
      isOkStep (liveStep keys nw.rtype (dropLastChar nw.fqdn)
        (contentsDict newFrags) r) = true)
    (hrem : replaceCount keys nw.rtype (dropLastChar nw.fqdn)
      (contentsDict newFrags) live = 0) :
    applyUpdate zones live existing nw =
      ((computeAdds (contentsDict exFrags) (contentsDict newFrags)).2.map
        (fun c => WireCall.post ("/zones/" ++ zid ++ "/dns_records") c), none) ∧
    ((computeAdds (contentsDict exFrags) (contentsDict newFrags)).2 = [] →
      applyUpdate zones live existing nw = ([], none)) := by
  obtain ⟨calls, heq, h1, h2, h3, h4⟩ :=
    scanLive_spec keys nw.rtype (dropLastChar nw.fqdn) (contentsDict newFrags) live
      (computeAdds (contentsDict exFrags) (contentsDict newFrags)).2 hlive
  rw [hrem] at heq h1
  rw [List.drop_zero] at heq
  have hnil : calls = [] := List.length_eq_zero.mp h1
  subst hnil
  constructor
  · simp only [applyUpdate, hex, hnw, hkeys, hz, heq, List.nil_append]
  · intro hempty
    rw [hempty] at heq
    simp only [applyUpdate, hex, hnw, hkeys, hz, hempty, heq, List.map_nil,
      List.nil_append]

/-- C2 witness: re-running with the change the planner would actually
compute on a second pass (existing = new = the desired CNAME) against
the post-first-run live state issues zero wire calls, via
`update_rerun_calls`. -/
theorem update_rerun_calls_witness :
    applyUpdate cfZones liveNew nwCname nwCname = ([], none) :=
  (update_rerun_calls cfZones liveNew nwCname nwCname
    [[("content", JVal.s "new."), ("name", JVal.s "a.unit.tests"),
      ("type", JVal.s "CNAME"), ("ttl", JVal.n 300)]]
    [[("content", JVal.s "new."), ("name", JVal.s "a.unit.tests"),
      ("type", JVal.s "CNAME"), ("ttl", JVal.n 300)]]
    ["content", "name", "type", "ttl"] "z1"
    (by decide) (by decide) (by decide) (by decide) (by decide) (by decide)).2
    (by decide)

/-- C2 counterexample: applying the literally same Update change (old →
new) a second time, against the post-first-run live state whose record
already carries content `new`, issues one create call — not the zero
calls the claim demands. -/
theorem update_rerun_second_run_creates :
    applyUpdate cfZones liveNew exCname nwCname =
      ([WireCall.post "/zones/z1/dns_records"
        [("content", JVal.s "new."), ("name", JVal.s "a.unit.tests"),
         ("type", JVal.s "CNAME"), ("ttl", JVal.n 300)]], none) ∧
    (applyUpdate cfZones liveNew exCname nwCname).1 ≠ [] := by
  exact ⟨by decide, by decide⟩

/-- `zone_records` touches only its own zone's cache entry. -/
theorem zoneRecordsGet_frame (fetch : String → List JObj) (st : ProvState)
    (zname n : String) (hn : n ≠ zname) :
    ((zoneRecordsGet fetch st zname).2).zoneRecords n = st.zoneRecords n := by
  simp only [zoneRecordsGet]
  split
  · rfl
  · split
    · rfl
    · split
      · rfl
      · simp [hn]

/-- `_apply_Update` leaves the state untouched or updates it exactly as
its `zone_records` read does. -/
theorem applyUpdateSt_state (fetch : String → List JObj) (st : ProvState)
    (ex nw : CanonicalRecord) :
    (applyUpdateSt fetch st ex nw).2 = st ∨
    (applyUpdateSt fetch st ex nw).2 = (zoneRecordsGet fetch st nw.zoneName).2 := by
  unfold applyUpdateSt
  rcases h1 : genContents ex with e1 | exFrags
  · simp
  · rcases h2 : genContents nw with e2 | newFrags
    · simp
    · rcases h3 : keysOf (contentsDict exFrags) with e3 | keys
      · simp [h3]
      · rcases h4 : st.zones nw.zoneName with _ | zid
        · simp [h3, h4]
        · rcases h5 : zoneRecordsGet fetch st nw.zoneName with ⟨live, st2⟩
          simp only [h3, h4, h5]
          rcases h6 : scanLive keys nw.rtype (dropLastChar nw.fqdn)
              (contentsDict newFrags)
              (computeAdds (contentsDict exFrags) (contentsDict newFrags)).2
              live with ⟨calls, out⟩
          cases out <;> simp [h6]

/-- Applying one change touches no cache entry other than the zones its
records name. -/
theorem applyChangeSt_frame (fetch : String → List JObj) (st : ProvState)
    (ch : Change) (zname : String)
    (hz : ∀ z ∈ changeZoneNames ch, z = zname) (n : String) (hn : n ≠ zname) :
    ((applyChangeSt fetch st ch).2).zoneRecords n = st.zoneRecords n := by
  cases ch with
  | create nw => rfl
  | update ex nw =>
    have hzn : nw.zoneName = zname := hz nw.zoneName (by simp [changeZoneNames])
    rcases applyUpdateSt_state fetch st ex nw with h | h
    · simp only [applyChangeSt, h]
    · simp only [applyChangeSt, h]
      exact zoneRecordsGet_frame fetch st nw.zoneName n (hzn ▸ hn)
  | delete ex =>
    have hzn : ex.zoneName = zname := hz ex.zoneName (by simp [changeZoneNames])
    show ((zoneRecordsGet fetch st ex.zoneName).2).zoneRecords n = st.zoneRecords n
    exact zoneRecordsGet_frame fetch st ex.zoneName n (hzn ▸ hn)

/-- The change loop touches no cache entry outside the plan's zone. -/
theorem applyChangesSt_frame (fetch : String → List JObj) (zname : String) :
    ∀ (changes : List Change) (st : ProvState),
      (∀ ch ∈ changes, ∀ z ∈ changeZoneNames ch, z = zname) →
      ∀ n, n ≠ zname →
        ((applyChangesSt fetch st changes).2).zoneRecords n = st.zoneRecords n := by
  intro changes
  induction changes with
  | nil => intro st _ n _; rfl
  | cons ch rest ih =>
    intro st h n hn
    have hch := h ch (by simp)
    have hrest : ∀ c ∈ rest, ∀ z ∈ changeZoneNames c, z = zname :=
      fun c hc => h c (by simp [hc])
    have hstep := applyChangeSt_frame fetch st ch zname hch n hn
    rcases hc1 : applyChangeSt fetch st ch with ⟨⟨calls, err⟩, st2⟩
    have hst2 : st2.zoneRecords n = st.zoneRecords n := by
      rw [← hstep, hc1]
    cases err with
    | some e => simp only [applyChangesSt, hc1]; exact hst2
    | none =>
      simp only [applyChangesSt, hc1]
      rcases hc2 : applyChangesSt fetch st2 rest with ⟨⟨calls2, err2⟩, st3⟩
      have := ih st2 hrest n hn
      rw [hc2] at this
      simp only []
      rw [this, hst2]

/-- C8: when `_apply` completes every change of a plan whose records all
target the plan's zone, the record cache entry for that zone name is
evicted — regardless of how many or which kinds of changes ran — and
cache entries for every other zone name are exactly as before. -/
theorem apply_evicts_zone_cache (fetch : String → List JObj)
    (newZoneId : String) (st : ProvState) (plan : Plan)
    (hz : ∀ ch ∈ plan.changes, ∀ z ∈ changeZoneNames ch, z = plan.zoneName)
    (hok : (applyPlanSt fetch newZoneId st plan).1.2 = none) :
    ((applyPlanSt fetch newZoneId st plan).2).zoneRecords plan.zoneName = none ∧
    ∀ n, n ≠ plan.zoneName →
      ((applyPlanSt fetch newZoneId st plan).2).zoneRecords n = st.zoneRecords n := by
  unfold applyPlanSt at hok ⊢
  dsimp only at hok ⊢
  set ens := (match st.zones plan.zoneName with
    | some _ => (([] : List WireCall), st)
    | none =>
      ([WireCall.post "/zones"
         [("name", JVal.s (dropLastChar plan.zoneName)),
          ("jump_start", JVal.bool false)]],
       { zones := fun n => if n = plan.zoneName then some newZoneId else st.zones n,
         zoneRecords := fun n =>
           if n = plan.zoneName then some [] else st.zoneRecords n })) with hens_def
  have hensframe : ∀ n, n ≠ plan.zoneName →
      ens.2.zoneRecords n = st.zoneRecords n := by
    intro n hn
    rw [hens_def]
    split
    · rfl
    · simp [hn]
  rcases hloop : applyChangesSt fetch ens.2 plan.changes with ⟨⟨calls, err⟩, st2⟩
  rw [hloop] at hok
  cases err with
  | some e => exact Option.noConfusion hok
  | none =>
    dsimp only
    constructor
    · simp
    · intro n hn
      simp only [if_neg hn]
      have hframe := applyChangesSt_frame fetch plan.zoneName plan.changes ens.2 hz n hn
      rw [hloop] at hframe
      dsimp only at hframe
      rw [hframe]
      exact hensframe n hn

/-- C8 witness: after applying the concrete one-delete plan, the target
zone's cache entry is gone while the other zone's entry is untouched,
via `apply_evicts_zone_cache`. -/
theorem apply_evicts_zone_cache_witness :
    ((applyPlanSt fetch8 "z9" st8 plan8).2).zoneRecords "unit.tests." = none ∧
    ((applyPlanSt fetch8 "z9" st8 plan8).2).zoneRecords "other.tests." =
      st8.zoneRecords "other.tests." := by
  have h := apply_evicts_zone_cache fetch8 "z9" st8 plan8 (by decide) (by decide)
  exact ⟨h.1, h.2 "other.tests." (by decide)⟩

/-- `unescapeSemis` passes over a character that does not start a
backslash-semicolon pair. -/
theorem unescape_cons_ne (c : Char) (rest : List Char)
    (h : ¬(c = '\\' ∧ ∃ r2, rest = ';' :: r2)) :
    unescapeSemis (c :: rest) = c :: unescapeSemis rest := by
  rw [unescapeSemis.eq_def]
  split
  · rename_i r heq
    injection heq with h1 h2
    exact absurd ⟨h1, r, h2⟩ h
  · rename_i c2 r2 heq
    injection heq with h1 h2
    rw [h1, h2]
  · rename_i heq
    exact absurd heq (by simp)

/-- `escapeSemis` passes over a non-semicolon character. -/
theorem escape_cons_ne (c : Char) (rest : List Char) (h : c ≠ ';') :
    escapeSemis (c :: rest) = c :: escapeSemis rest := by
  rw [escapeSemis.eq_def]
  split
  · rename_i r heq
    injection heq with h1 h2
    exact absurd h1 h
  · rename_i c2 r2 heq
    injection heq with h1 h2
    rw [h1, h2]
  · rename_i heq
    exact absurd heq (by simp)

/-- `escapedOk` passes over a character that neither starts a
backslash-semicolon pair nor is a bare semicolon. -/
theorem escapedOk_cons_ne (c : Char) (rest : List Char)
    (h : ¬(c = '\\' ∧ ∃ r2, rest = ';' :: r2)) (hc : c ≠ ';') :
    escapedOk (c :: rest) = escapedOk rest := by
  rw [escapedOk.eq_def]
  split
  · rename_i r heq
    injection heq with h1 h2
    exact absurd ⟨h1, r, h2⟩ h
  · rename_i r heq
    injection heq with h1 h2
    exact absurd h1 hc
  · rename_i c2 r2 heq
    injection heq with h1 h2
    rw [h2]
  · rename_i heq
    exact absurd heq (by simp)

/-- Re-escaping the unescaped form of a well-escaped character list
reproduces it: the round trip of `_contents_for_TXT` and
`_data_for_TXT`. -/
theorem escape_unescape (n : Nat) :
    ∀ s : List Char, s.length ≤ n → escapedOk s = true →
      escapeSemis (unescapeSemis s) = s := by
  induction n with
  | zero =>
    intro s hl _
    have hs : s = [] := List.eq_nil_of_length_eq_zero (Nat.le_zero.mp hl)
    subst hs
    rfl
  | succ n ih =>
    intro s hl h
    cases s with
    | nil => rfl
    | cons c rest =>
      by_cases hc : c = '\\' ∧ ∃ r2, rest = ';' :: r2
      · obtain ⟨hc1, r2, hc2⟩ := hc
        subst hc1
        subst hc2
        have h' : escapedOk r2 = true := h
        have ihr := ih r2 (by simp at hl ⊢; omega) h'
        show '\\' :: ';' :: escapeSemis (unescapeSemis r2) = '\\' :: ';' :: r2
        rw [ihr]
      · have hcs : c ≠ ';' := by
          intro hcc
          subst hcc
          have : escapedOk (';' :: rest) = false := rfl
          rw [this] at h
          exact Bool.noConfusion h
        have h' : escapedOk rest = true := by
          rw [escapedOk_cons_ne c rest hc hcs] at h
          exact h
        rw [unescape_cons_ne c rest hc, escape_cons_ne c (unescapeSemis rest) hcs,
          ih rest (by simp at hl; omega) h']

/-- String-level TXT escaping round trip. -/
theorem escape_unescape_str (v : String) (h : escapedOkS v = true) :
    escapeSemisS (unescapeSemisS v) = v := by
  show String.mk (escapeSemis (String.mk (unescapeSemis v.data)).data) = v
  have : (String.mk (unescapeSemis v.data)).data = unescapeSemis v.data := rfl
  rw [this, escape_unescape v.data.length v.data (Nat.le_refl _) h]

/-- Exception-free mapping over an encoded fragment list. -/
theorem mapExcept_map_ok {α β γ : Type} (f : β → Except PyErr γ) (g : α → β)
    (gv : α → γ) (l : List α) (h : ∀ x ∈ l, f (g x) = Except.ok (gv x)) :
    mapExcept f (l.map g) = Except.ok (l.map gv) := by
  induction l with
  | nil => rfl
  | cons a rest ih =>
    have ha := h a (by simp)
    have hrest := ih (fun x hx => h x (by simp [hx]))
    simp only [List.map_cons, mapExcept, ha, hrest]

theorem roundtrip_multiple (r : CanonicalRecord) (vs : List String) (tpe : String)
    (htpe : tpe = "A" ∨ tpe = "AAAA" ∨ tpe = "SPF")
    (hr : r.rtype = tpe) (hv : r.values = RecordValues.strs vs) (hne : vs ≠ []) :
    ∃ frags, genContents r = Except.ok frags ∧
      dataFor tpe frags = Except.ok
        ⟨JVal.n (pyMax MIN_TTL r.ttl), tpe, DecPayload.values (vs.map JVal.s)⟩ := by
  have hgen : genContents r = Except.ok (vs.map (fun v =>
      [("content", JVal.s v), ("name", JVal.s (dropLastChar r.fqdn)),
       ("type", JVal.s tpe), ("ttl", JVal.n (pyMax MIN_TTL r.ttl))])) := by
    rcases htpe with h | h | h <;> subst h <;>
      simp [genContents, contentsFor, hr, hv]
  refine ⟨_, hgen, ?_⟩
  cases vs with
  | nil => exact absurd rfl hne
  | cons v0 vt =>
    have hmap := mapExcept_map_ok (fun rec => pySub rec "content")
      (fun v => [("content", JVal.s v), ("name", JVal.s (dropLastChar r.fqdn)),
        ("type", JVal.s tpe), ("ttl", JVal.n (pyMax MIN_TTL r.ttl))])
      JVal.s (v0 :: vt) (fun x _ => by simp [pySub, assocFind])
    have httl : pySub [("content", JVal.s v0), ("name", JVal.s (dropLastChar r.fqdn)),
        ("type", JVal.s tpe), ("ttl", JVal.n (pyMax MIN_TTL r.ttl))] "ttl" =
        Except.ok (JVal.n (pyMax MIN_TTL r.ttl)) := by simp [pySub, assocFind]
    simp only [List.map_cons] at hmap
    rcases htpe with h | h | h <;> subst h <;>
      simp [dataFor, data_for_multiple, httl, hmap]

theorem roundtrip_txt (r : CanonicalRecord) (vs : List String)
    (hr : r.rtype = "TXT") (hv : r.values = RecordValues.strs vs) (hne : vs ≠ [])
    (hesc : ∀ v ∈ vs, escapedOkS v = true) :
    ∃ frags, genContents r = Except.ok frags ∧
      dataFor "TXT" frags = Except.ok
        ⟨JVal.n (pyMax MIN_TTL r.ttl), "TXT", DecPayload.strValues vs⟩ := by
  have hgen : genContents r = Except.ok (vs.map (fun v =>
      [("content", JVal.s (unescapeSemisS v)), ("name", JVal.s (dropLastChar r.fqdn)),
       ("type", JVal.s "TXT"), ("ttl", JVal.n (pyMax MIN_TTL r.ttl))])) := by
    simp [genContents, contentsFor, hr, hv]
  refine ⟨_, hgen, ?_⟩
  cases vs with
  | nil => exact absurd rfl hne
  | cons v0 vt =>
    have hmap := mapExcept_map_ok
      (fun rec => match pySub rec "content" with
        | Except.error e => Except.error e
        | Except.ok (JVal.s v) => Except.ok (escapeSemisS v)
        | Except.ok _ => Except.error PyErr.attributeError)
      (fun v => [("content", JVal.s (unescapeSemisS v)),
        ("name", JVal.s (dropLastChar r.fqdn)),
        ("type", JVal.s "TXT"), ("ttl", JVal.n (pyMax MIN_TTL r.ttl))])
      (fun v => v) (v0 :: vt)
      (fun x hx => by
        simp [pySub, assocFind]
        exact escape_unescape_str x (hesc x hx))
    have httl : pySub [("content", JVal.s (unescapeSemisS v0)),
        ("name", JVal.s (dropLastChar r.fqdn)),
        ("type", JVal.s "TXT"), ("ttl", JVal.n (pyMax MIN_TTL r.ttl))] "ttl" =
        Except.ok (JVal.n (pyMax MIN_TTL r.ttl)) := by simp [pySub, assocFind]
    simp only [List.map_cons] at hmap
    simp [dataFor, data_for_TXT, httl, hmap]

theorem roundtrip_caa (r : CanonicalRecord) (vs : List CaaValue)
    (hr : r.rtype = "CAA") (hv : r.values = RecordValues.caas vs) (hne : vs ≠ []) :
    ∃ frags, genContents r = Except.ok frags ∧
      dataFor "CAA" frags = Except.ok
        ⟨JVal.n (pyMax MIN_TTL r.ttl), "CAA", DecPayload.values (vs.map caaObj)⟩ := by
  have hgen : genContents r = Except.ok (vs.map (fun v =>
      [("data", caaObj v), ("name", JVal.s (dropLastChar r.fqdn)),
       ("type", JVal.s "CAA"), ("ttl", JVal.n (pyMax MIN_TTL r.ttl))])) := by
    simp [genContents, contentsFor, hr, hv]
  refine ⟨_, hgen, ?_⟩
  cases vs with
  | nil => exact absurd rfl hne
  | cons v0 vt =>
    have hmap := mapExcept_map_ok (fun rec => pySub rec "data")
      (fun v => [("data", caaObj v), ("name", JVal.s (dropLastChar r.fqdn)),
        ("type", JVal.s "CAA"), ("ttl", JVal.n (pyMax MIN_TTL r.ttl))])
      caaObj (v0 :: vt) (fun x _ => by simp [pySub, assocFind])
    have httl : pySub [("data", caaObj v0), ("name", JVal.s (dropLastChar r.fqdn)),
        ("type", JVal.s "CAA"), ("ttl", JVal.n (pyMax MIN_TTL r.ttl))] "ttl" =
        Except.ok (JVal.n (pyMax MIN_TTL r.ttl)) := by simp [pySub, assocFind]
    simp only [List.map_cons] at hmap
    simp [dataFor, data_for_CAA, httl, hmap]

theorem roundtrip_cname (r : CanonicalRecord) (v : String)
    (hr : r.rtype = "CNAME") (hv : r.values = RecordValues.single v) :
    ∃ frags, genContents r = Except.ok frags ∧
      dataFor "CNAME" frags = Except.ok
        ⟨JVal.n (pyMax MIN_TTL r.ttl), "CNAME", DecPayload.value (v ++ ".")⟩ := by
  have hgen : genContents r = Except.ok
      [[("content", JVal.s v), ("name", JVal.s (dropLastChar r.fqdn)),
        ("type", JVal.s "CNAME"), ("ttl", JVal.n (pyMax MIN_TTL r.ttl))]] := by
    simp [genContents, contentsFor, hr, hv]
  refine ⟨_, hgen, ?_⟩
  simp [dataFor, data_for_CNAME, pySub, assocFind, pyStr]

theorem roundtrip_alias (r : CanonicalRecord) (v : String)
    (hr : r.rtype = "ALIAS") (hv : r.values = RecordValues.single v) (hname : r.name = "") :
    ∃ frags, genContents r = Except.ok frags ∧
      decodeGroup r.name "CNAME" frags = Except.ok
        ⟨JVal.n (pyMax MIN_TTL r.ttl), "ALIAS", DecPayload.value (v ++ ".")⟩ := by
  have hgen : genContents r = Except.ok
      [[("content", JVal.s v), ("name", JVal.s (dropLastChar r.fqdn)),
        ("type", JVal.s "CNAME"), ("ttl", JVal.n (pyMax MIN_TTL r.ttl))]] := by
    simp [genContents, contentsFor, hr, hv]
  refine ⟨_, hgen, ?_⟩
  rw [hname]
  simp [decodeGroup, dataFor, data_for_CNAME, pySub, assocFind, pyStr]

theorem roundtrip_ns (r : CanonicalRecord) (vs : List String)
    (hr : r.rtype = "NS") (hv : r.values = RecordValues.strs vs) (hne : vs ≠ []) :
    ∃ frags, genContents r = Except.ok frags ∧
      dataFor "NS" frags = Except.ok
        ⟨JVal.n (pyMax MIN_TTL r.ttl), "NS",
         DecPayload.strValues (vs.map (fun v => v ++ "."))⟩ := by
  have hgen : genContents r = Except.ok (vs.map (fun v =>
      [("content", JVal.s v), ("name", JVal.s (dropLastChar r.fqdn)),
       ("type", JVal.s "NS"), ("ttl", JVal.n (pyMax MIN_TTL r.ttl))])) := by
    simp [genContents, contentsFor, hr, hv]
  refine ⟨_, hgen, ?_⟩
  cases vs with
  | nil => exact absurd rfl hne
  | cons v0 vt =>
    have hmap := mapExcept_map_ok
      (fun rec => match pySub rec "content" with
        | Except.error e => Except.error e
        | Except.ok content => Except.ok (pyStr content ++ "."))
      (fun v => [("content", JVal.s v), ("name", JVal.s (dropLastChar r.fqdn)),
        ("type", JVal.s "NS"), ("ttl", JVal.n (pyMax MIN_TTL r.ttl))])
      (fun v => v ++ ".") (v0 :: vt)
      (fun x _ => by simp [pySub, assocFind, pyStr])
    have httl : pySub [("content", JVal.s v0), ("name", JVal.s (dropLastChar r.fqdn)),
        ("type", JVal.s "NS"), ("ttl", JVal.n (pyMax MIN_TTL r.ttl))] "ttl" =
        Except.ok (JVal.n (pyMax MIN_TTL r.ttl)) := by simp [pySub, assocFind]
    simp only [List.map_cons] at hmap
    simp [dataFor, data_for_NS, httl, hmap]

theorem roundtrip_mx (r : CanonicalRecord) (vs : List MxValue)
    (hr : r.rtype = "MX") (hv : r.values = RecordValues.mxs vs) (hne : vs ≠ []) :
    ∃ frags, genContents r = Except.ok frags ∧
      dataFor "MX" frags = Except.ok
        ⟨JVal.n (pyMax MIN_TTL r.ttl), "MX",
         DecPayload.mxValues (vs.map (fun v =>
           (JVal.n v.preference, v.exchange ++ ".")))⟩ := by
  have hgen : genContents r = Except.ok (vs.map (fun v =>
      [("priority", JVal.n v.preference), ("content", JVal.s v.exchange),
       ("name", JVal.s (dropLastChar r.fqdn)),
       ("type", JVal.s "MX"), ("ttl", JVal.n (pyMax MIN_TTL r.ttl))])) := by
    simp [genContents, contentsFor, hr, hv]
  refine ⟨_, hgen, ?_⟩
  cases vs with
  | nil => exact absurd rfl hne
  | cons v0 vt =>
    have hmap := mapExcept_map_ok
      (fun rec => match pySub rec "priority" with
        | Except.error e => Except.error e
        | Except.ok prio => match pySub rec "content" with
          | Except.error e => Except.error e
          | Except.ok content => Except.ok (prio, pyStr content ++ "."))
      (fun v => [("priority", JVal.n v.preference), ("content", JVal.s v.exchange),
        ("name", JVal.s (dropLastChar r.fqdn)),
        ("type", JVal.s "MX"), ("ttl", JVal.n (pyMax MIN_TTL r.ttl))])
      (fun v => (JVal.n v.preference, v.exchange ++ ".")) (v0 :: vt)
      (fun x _ => by simp [pySub, assocFind, pyStr])
    have httl : pySub [("priority", JVal.n v0.preference), ("content", JVal.s v0.exchange),
        ("name", JVal.s (dropLastChar r.fqdn)),
        ("type", JVal.s "MX"), ("ttl", JVal.n (pyMax MIN_TTL r.ttl))] "ttl" =
        Except.ok (JVal.n (pyMax MIN_TTL r.ttl)) := by simp [pySub, assocFind]
    simp only [List.map_cons] at hmap
    simp [dataFor, data_for_MX, httl, hmap]

/-- C3 (amended): decoding the wire fragments produced by encoding a
canonical record reproduces the original values exactly for the
multi-value flat types (A, AAAA, SPF), for TXT records whose semicolons
are escaped, and for CAA; for CNAME, ALIAS, NS and MX the decoded
fully-qualified values each carry one extra trailing dot relative to the
canonical original, because the encoder keeps the canonical trailing dot
while the decoder appends one more (the decoder is written for wire
records as the service returns them, with undotted content) — all up to
the representative-TTL selection. -/
theorem codec_roundtrip
    (r : CanonicalRecord) :
    (∀ vs tpe, (tpe = "A" ∨ tpe = "AAAA" ∨ tpe = "SPF") → r.rtype = tpe →
      r.values = RecordValues.strs vs → vs ≠ [] →
      ∃ frags, genContents r = Except.ok frags ∧
        dataFor tpe frags = Except.ok
          ⟨JVal.n (pyMax MIN_TTL r.ttl), tpe, DecPayload.values (vs.map JVal.s)⟩) ∧
    (∀ vs, r.rtype = "TXT" → r.values = RecordValues.strs vs → vs ≠ [] →
      (∀ v ∈ vs, escapedOkS v = true) →
      ∃ frags, genContents r = Except.ok frags ∧
        dataFor "TXT" frags = Except.ok
          ⟨JVal.n (pyMax MIN_TTL r.ttl), "TXT", DecPayload.strValues vs⟩) ∧
    (∀ vs, r.rtype = "CAA" → r.values = RecordValues.caas vs → vs ≠ [] →
      ∃ frags, genContents r = Except.ok frags ∧
        dataFor "CAA" frags = Except.ok
          ⟨JVal.n (pyMax MIN_TTL r.ttl), "CAA", DecPayload.values (vs.map caaObj)⟩) ∧
    (∀ v, r.rtype = "CNAME" → r.values = RecordValues.single v →
      ∃ frags, genContents r = Except.ok frags ∧
        dataFor "CNAME" frags = Except.ok
          ⟨JVal.n (pyMax MIN_TTL r.ttl), "CNAME", DecPayload.value (v ++ ".")⟩) ∧
    (∀ v, r.rtype = "ALIAS" → r.values = RecordValues.single v → r.name = "" →
      ∃ frags, genContents r = Except.ok frags ∧
        decodeGroup r.name "CNAME" frags = Except.ok
          ⟨JVal.n (pyMax MIN_TTL r.ttl), "ALIAS", DecPayload.value (v ++ ".")⟩) ∧
    (∀ vs, r.rtype = "NS" → r.values = RecordValues.strs vs → vs ≠ [] →
      ∃ frags, genContents r = Except.ok frags ∧
        dataFor "NS" frags = Except.ok
          ⟨JVal.n (pyMax MIN_TTL r.ttl), "NS",
           DecPayload.strValues (vs.map (fun v => v ++ "."))⟩) ∧
    (∀ vs, r.rtype = "MX" → r.values = RecordValues.mxs vs → vs ≠ [] →
      ∃ frags, genContents r = Except.ok frags ∧
        dataFor "MX" frags = Except.ok
          ⟨JVal.n (pyMax MIN_TTL r.ttl), "MX",
           DecPayload.mxValues (vs.map (fun v =>
             (JVal.n v.preference, v.exchange ++ ".")))⟩) :=
  ⟨fun vs tpe htpe hr hv hne => roundtrip_multiple r vs tpe htpe hr hv hne,
   fun vs hr hv hne hesc => roundtrip_txt r vs hr hv hne hesc,
   fun vs hr hv hne => roundtrip_caa r vs hr hv hne,
   fun v hr hv => roundtrip_cname r v hr hv,
   fun v hr hv hname => roundtrip_alias r v hr hv hname,
   fun vs hr hv hne => roundtrip_ns r vs hr hv hne,
   fun vs hr hv hne => roundtrip_mx r vs hr hv hne⟩

/-- C3 witness: the concrete A record round-trips exactly, and the
concrete escaped-semicolon TXT record round-trips exactly, via
`codec_roundtrip`. -/
theorem codec_roundtrip_witness :
    (∃ frags,
      genContents ⟨"unit.tests.", "w", "A", 300,
        RecordValues.strs ["1.2.3.4", "5.6.7.8"]⟩ = Except.ok frags ∧
      dataFor "A" frags = Except.ok
        ⟨JVal.n 300, "A", DecPayload.values [JVal.s "1.2.3.4", JVal.s "5.6.7.8"]⟩) ∧
    (∃ frags,
      genContents ⟨"unit.tests.", "t", "TXT", 300,
        RecordValues.strs ["hello\\;world"]⟩ = Except.ok frags ∧
      dataFor "TXT" frags = Except.ok
        ⟨JVal.n 300, "TXT", DecPayload.strValues ["hello\\;world"]⟩) := by
  constructor
  · exact (codec_roundtrip ⟨"unit.tests.", "w", "A", 300,
      RecordValues.strs ["1.2.3.4", "5.6.7.8"]⟩).1
      ["1.2.3.4", "5.6.7.8"] "A" (Or.inl rfl) rfl rfl (by decide)
  · exact (codec_roundtrip ⟨"unit.tests.", "t", "TXT", 300,
      RecordValues.strs ["hello\\;world"]⟩).2.1
      ["hello\\;world"] rfl rfl (by decide) (by decide)

/-- C3 counterexample: the concrete CNAME record with canonical value
`old.` decodes, after encoding, to the value `old..` — one trailing dot
too many — so the round trip does not reproduce the original canonical
value as the claim states. -/
theorem roundtrip_cname_extra_dot :
    (genContents exCname).bind (dataFor "CNAME") =
      Except.ok ⟨JVal.n 300, "CNAME", DecPayload.value "old.."⟩ ∧
    "old.." ≠ "old." := by
  exact ⟨by decide, by decide⟩
